import Mathlib

/-!
Verification of the field-extraction and record-reconciliation engine of the
pdf-emailer platform: a shallow embedding of the reconciler
(`performMatching` in `EmailSendingComponent.tsx`), the filename decomposer
(`parseFilename` in `ZipUploadComponent.tsx`), the pattern matcher and
synthesizer (`patternDetection.ts`) and the pattern tester
(`PatternDiscoveryTool.tsx`), together with proofs of the specified
properties.

Strings are modelled by Lean `String` (a list of characters); JavaScript
string primitives (`toLowerCase`, `trim`, `includes`, `split`, `replace`)
are embedded as executable functions on `List Char`.  JavaScript `Map`
objects are embedded as insertion-ordered association lists with
`Map.set` / `Map.get` semantics.  JavaScript numbers appearing in the
confidence arithmetic are embedded as rationals.
-/

namespace PdfEmailer

/-! ## JavaScript string primitives -/

/-- JS `String.prototype.toLowerCase`, restricted to the ASCII range that the
engine's data actually uses (account numbers, label words). -/
def jsToLower (s : String) : String := String.mk (s.data.map Char.toLower)

/-- Whitespace class used by JS `trim` and the `\s` regex class, restricted
to ASCII. -/
def isWS (c : Char) : Bool := c = ' ' ∨ c = '\t' ∨ c = '\n' ∨ c = '\r'

/-- JS `String.prototype.trim`: drop whitespace at both ends. -/
def jsTrim (s : String) : String :=
  String.mk (((s.data.dropWhile isWS).reverse.dropWhile isWS).reverse)

/-- The normalization applied to account numbers before the equi-join:
`accountNumber.toLowerCase().trim()`. -/
def normalizeKey (s : String) : String := jsTrim (jsToLower s)

/-! ## Reconciler data model (`EmailSendingComponent.tsx`) -/

/-- One extracted PDF segment (interface `PDFFile`).  The opaque `Blob`
payload is modelled as a byte list. -/
structure PDFFile where
  name : String
  accountNumber : String
  customerName : String
  blob : List Nat
deriving DecidableEq, Repr

/-- One uploaded customer row (interface `CustomerData`). -/
structure CustomerData where
  accountNumber : String
  email : String
  customerName : String
deriving DecidableEq, Repr

/-- One reconciled record (interface `MatchedData`). -/
structure MatchedData where
  pdf : PDFFile
  customer : CustomerData
  matched : Bool
deriving DecidableEq, Repr

/-! JS `Map<string, CustomerData>` as an insertion-ordered association list. -/

/-- JS `Map.set`: replace in place if the key is present, else append. -/
def mapSet (m : List (String × CustomerData)) (k : String) (v : CustomerData) :
    List (String × CustomerData) :=
  if m.any (fun p => p.1 = k) then
    m.map (fun p => if p.1 = k then (k, v) else p)
  else
    m ++ [(k, v)]

/-- JS `Map.get`: the value stored at `k`, if any. -/
def mapGet (m : List (String × CustomerData)) (k : String) : Option CustomerData :=
  (m.find? (fun p => p.1 = k)).map (fun p => p.2)

/-- The customer lookup built by `performMatching`:
`customerData.forEach(c => customerMap.set(c.accountNumber.toLowerCase().trim(), c))`. -/
def buildCustomerMap (customerData : List CustomerData) : List (String × CustomerData) :=
  customerData.foldl (fun m c => mapSet m (normalizeKey c.accountNumber) c) []

/-- The placeholder customer attached to an unmatched segment:
`{ accountNumber: pdf.accountNumber, email: '', customerName: pdf.customerName }`. -/
def placeholderCustomer (pdf : PDFFile) : CustomerData :=
  ⟨pdf.accountNumber, "", pdf.customerName⟩

/-- The body of the `pdfFiles.forEach` loop of `performMatching`: pair one
PDF segment with the customer found at its normalized key
(`matched: !!customer`), or with the placeholder (`customer || {...}`) when
the lookup misses. -/
def reconcileOne (customerData : List CustomerData) (pdf : PDFFile) : MatchedData :=
  match mapGet (buildCustomerMap customerData) (normalizeKey pdf.accountNumber) with
  | some customer => ⟨pdf, customer, true⟩
  | none => ⟨pdf, placeholderCustomer pdf, false⟩

/-- Embedding of `performMatching` (EmailSendingComponent.tsx, lines
722–795): build the normalized customer lookup, then push one `MatchedData`
record per PDF segment, in input order. -/
def performMatching (pdfFiles : List PDFFile) (customerData : List CustomerData) :
    List MatchedData :=
  pdfFiles.map (reconcileOne customerData)

/-- The customer record the join should produce for key `k`: the last input
customer whose normalized account number is `k`. -/
def lookupLast (customerData : List CustomerData) (k : String) : Option CustomerData :=
  customerData.reverse.find? (fun c => normalizeKey c.accountNumber = k)

/-- Witness data: a segment whose account number matches `wCust` up to
case and surrounding whitespace. -/
def wPdf : PDFFile := ⟨"stmt.pdf", "Abc123", "Fallback Name", [1, 2]⟩

/-- Witness data: one well-formed customer row. -/
def wCust : CustomerData := ⟨"ABC123", "a@x.com", "A"⟩

/-- Witness data: a second customer row whose account number normalizes to
the same key as `wCust` (duplicate-key scenario). -/
def wCust2 : CustomerData := ⟨" abc123", "second@x.com", "B"⟩

/-- Witness data: the reconciled record for `wPdf` against `[wCust]`. -/
def wOut1 : MatchedData := reconcileOne [wCust] wPdf

/-- Witness data: the reconciled record for `wPdf` against
`[wCust, wCust2]`. -/
def wOut : MatchedData := reconcileOne [wCust, wCust2] wPdf

/-! ## Filename decomposer (`ZipUploadComponent.tsx`, `parseFilename`)

The regular expressions used by `parseFilename` are simple enough to embed
directly: character classes plus bounded greedy repetition with
backtracking, implemented in continuation-passing style.  All definitions
are structurally recursive so that concrete runs reduce inside the
kernel. -/

/-- Character class `[A-Z]`. -/
def isUpperC (c : Char) : Bool := 'A' ≤ c ∧ c ≤ 'Z'

/-- Character class `[a-z]`. -/
def isLowerC (c : Char) : Bool := 'a' ≤ c ∧ c ≤ 'z'

/-- Character class `\d` / `[0-9]`. -/
def isDigitC (c : Char) : Bool := '0' ≤ c ∧ c ≤ '9'

/-- Character class `[A-Z0-9]`. -/
def isAlnumUpper (c : Char) : Bool := isUpperC c ∨ isDigitC c

/-- Character class `[A-Za-z]`. -/
def isAlphaC (c : Char) : Bool := isUpperC c ∨ isLowerC c

/-- Character class `[A-Za-z0-9]`. -/
def isAlnumC (c : Char) : Bool := isAlphaC c ∨ isDigitC c

/-- Character class `[_\-\s]` (separators collapsed by strategy 1). -/
def isSepC (c : Char) : Bool := c = '_' ∨ c = '-' ∨ isWS c

/-- Character class `[\/\-]` (date-component separators). -/
def isSlashDash (c : Char) : Bool := c = '/' ∨ c = '-'

/-- JS `String.prototype.replace` with a string pattern: replace the first
occurrence of `pat` (matching JS, an empty pattern matches at position 0). -/
def replaceFirst (pat repl : List Char) : List Char → List Char
  | [] => if pat.isPrefixOf ([] : List Char) then repl else []
  | c :: t =>
    if pat.isPrefixOf (c :: t) then repl ++ (c :: t).drop pat.length
    else c :: replaceFirst pat repl t

/-- Length of the maximal run of characters satisfying `P` at the head. -/
def countLeading (P : Char → Bool) : List Char → Nat
  | [] => 0
  | c :: t => if P c then countLeading P t + 1 else 0

/-- Anchored test `/^[A-Z]{2,6}[A-Z0-9]{2,8}$/.test(s)`: some split of the
whole string into 2–6 uppercase letters followed by 2–8 uppercase
alphanumerics. -/
def acctShapeTest (cs : List Char) : Bool :=
  (List.range' 2 5).any fun a =>
    decide (a ≤ cs.length) && (cs.take a).all isUpperC &&
      decide (2 ≤ cs.length - a) && decide (cs.length - a ≤ 8) &&
      (cs.drop a).all isAlnumUpper

/-- Greedy match of `/([A-Z]{2,6}[A-Z0-9]{2,8})/` anchored at the head:
the letter quantifier backtracks from 6 down to 2; the trailing
alphanumeric quantifier greedily takes up to 8 characters of the run. -/
def acctMatchAt (cs : List Char) : Option (List Char) :=
  [6, 5, 4, 3, 2].findSome? fun a =>
    if decide (a ≤ cs.length) && (cs.take a).all isUpperC then
      let b := min 8 (countLeading isAlnumUpper (cs.drop a))
      if 2 ≤ b then some (cs.take (a + b)) else none
    else none

/-- Leftmost unanchored match of the account-number pattern
(`nameWithoutExt.match(/([A-Z]{2,6}[A-Z0-9]{2,8})/)`). -/
def acctSearch : List Char → Option (List Char)
  | [] => none
  | c :: t =>
    match acctMatchAt (c :: t) with
    | some m => some m
    | none => acctSearch t

/-- Worker for `collapseSeps`; `pending` records that a separator run is
open and must emit one space before the next literal character (or at the
end of the string). -/
def collapseSepsAux (pending : Bool) : List Char → List Char
  | [] => if pending then [' '] else []
  | c :: t =>
    if isSepC c then collapseSepsAux true t
    else if pending then ' ' :: c :: collapseSepsAux false t
    else c :: collapseSepsAux false t

/-- JS `.replace(/[_\-\s]+/g, ' ')`: every maximal separator run becomes a
single space. -/
def collapseSeps (cs : List Char) : List Char := collapseSepsAux false cs

/-- Greedy repetition `P{lo,hi}` with backtracking, in CPS: try the counts
from `hi` down to `lo`, and succeed with the first count for which the
continuation succeeds on the rest.  Returns the total consumed length. -/
def tryReps (lo hi : Nat) (P : Char → Bool) (cs : List Char)
    (k : List Char → Option Nat) : Option Nat :=
  ((List.range (hi + 1 - lo)).map (fun d => hi - d)).findSome? fun n =>
    if decide (n ≤ cs.length) && (cs.take n).all P then
      (k (cs.drop n)).map (fun m => n + m)
    else none

/-- Single mandatory character of class `P`, in CPS. -/
def tryOne (P : Char → Bool) (cs : List Char) (k : List Char → Option Nat) :
    Option Nat :=
  match cs with
  | [] => none
  | c :: t => if P c then (k t).map (fun m => 1 + m) else none

/-- Optional character `P?` (greedy: consuming first), in CPS. -/
def tryOpt (P : Char → Bool) (cs : List Char) (k : List Char → Option Nat) :
    Option Nat :=
  match cs with
  | [] => k ([] : List Char)
  | c :: t =>
    if P c then
      match (k t).map (fun m => 1 + m) with
      | some r => some r
      | none => k (c :: t)
    else k (c :: t)

/-- Match `/\d{1,2}[\/\-]\d{1,2}[\/\-]\d{2,4}/` at the head, returning the
consumed length. -/
def matchDateMDY (cs : List Char) : Option Nat :=
  tryReps 1 2 isDigitC cs fun r1 =>
    tryOne isSlashDash r1 fun r2 =>
      tryReps 1 2 isDigitC r2 fun r3 =>
        tryOne isSlashDash r3 fun r4 =>
          tryReps 2 4 isDigitC r4 fun _ => some 0

/-- Match `/\d{4}[\/\-]\d{1,2}[\/\-]\d{1,2}/` at the head. -/
def matchDateYMD (cs : List Char) : Option Nat :=
  tryReps 4 4 isDigitC cs fun r1 =>
    tryOne isSlashDash r1 fun r2 =>
      tryReps 1 2 isDigitC r2 fun r3 =>
        tryOne isSlashDash r3 fun r4 =>
          tryReps 1 2 isDigitC r4 fun _ => some 0

/-- Match `/\d{1,2}[\/\-]\d{1,2}/` at the head. -/
def matchDateMD (cs : List Char) : Option Nat :=
  tryReps 1 2 isDigitC cs fun r1 =>
    tryOne isSlashDash r1 fun r2 =>
      tryReps 1 2 isDigitC r2 fun _ => some 0

/-- Worker for `globalRemove`, with explicit fuel (one unit per input
character suffices, as every successful match consumes at least one
character). -/
def globalRemoveFuel (matchAt : List Char → Option Nat) : Nat → List Char → List Char
  | 0, cs => cs
  | _ + 1, [] => []
  | fuel + 1, c :: t =>
    match matchAt (c :: t) with
    | some (n + 1) => globalRemoveFuel matchAt fuel (t.drop n)
    | _ => c :: globalRemoveFuel matchAt fuel t

/-- JS `.replace(pattern, '')` with a global pattern: scan left to right,
deleting each leftmost match and resuming after it. -/
def globalRemove (matchAt : List Char → Option Nat) (cs : List Char) : List Char :=
  globalRemoveFuel matchAt cs.length cs

/-- Anchored test `/^\d{1,2}[\/\-]\d{1,2}[\/\-]?\d{0,4}$/.test(part)` used
to exclude bare dates from name fragments in strategies 3 and 4. -/
def datePartTest (cs : List Char) : Bool :=
  (tryReps 1 2 isDigitC cs fun r1 =>
    tryOne isSlashDash r1 fun r2 =>
      tryReps 1 2 isDigitC r2 fun r3 =>
        tryOpt isSlashDash r3 fun r4 =>
          tryReps 0 4 isDigitC r4 fun rest =>
            if rest.isEmpty then some 0 else none).isSome

/-- JS `String.prototype.split` with a single-character separator. -/
def splitOnChar (sep : Char) : List Char → List (List Char)
  | [] => [[]]
  | c :: t =>
    match splitOnChar sep t with
    | [] => [[]]
    | h :: r => if c = sep then [] :: h :: r else (c :: h) :: r

/-- JS `Array.prototype.join(' ')`. -/
def joinSpace : List (List Char) → List Char
  | [] => []
  | [x] => x
  | x :: y :: xs => x ++ ' ' :: joinSpace (y :: xs)

/-- List-level `trim`. -/
def trimL (cs : List Char) : List Char :=
  ((cs.dropWhile isWS).reverse.dropWhile isWS).reverse

/-- JS `x || 'Unknown'` on strings: the empty string is falsy. -/
def orUnknown (s : List Char) : List Char :=
  if s.isEmpty then ("Unknown").data else s

/-- Strategy 1 of `parseFilename`: an embedded account-number shape was
found; remove it, collapse separators, strip slash/dash numeric dates, and
keep the rest as the name. -/
def parseStrategy1 (acct nameWE : List Char) : List Char × List Char :=
  let remaining := trimL (replaceFirst acct ([] : List Char) nameWE)
  let nm := trimL (globalRemove matchDateMD (globalRemove matchDateYMD
    (globalRemove matchDateMDY (collapseSeps remaining))))
  (acct, if nm.isEmpty then ("Unknown").data else nm)

/-- Strategy 2 of `parseFilename` (underscore-separated): segment 0 is the
account if it has the strict account shape, otherwise the assignment is
swapped. -/
def parseStrategy2 (parts : List (List Char)) : List Char × List Char :=
  match parts with
  | p0 :: p1 :: _ =>
    if acctShapeTest p0 then (p0, p1) else (p1, p0)
  | _ => ([], [])

/-- Strategies 3 and 4 of `parseFilename` (space- or dash-separated): scan
for a segment of the strict account shape; the name is the join of the
other segments minus bare dates; otherwise fall back to
segment 0 / segment 1. -/
def parseScanParts (parts : List (List Char)) : List Char × List Char :=
  match parts.findIdx? acctShapeTest with
  | some i =>
    let nameParts := (parts.enum.filter
      (fun p => decide (p.1 ≠ i) && ! datePartTest p.2)).map (fun p => p.2)
    let nm := trimL (joinSpace nameParts)
    (parts.getD i ([] : List Char), if nm.isEmpty then ("Unknown").data else nm)
  | none =>
    match parts with
    | p0 :: p1 :: _ => (p0, p1)
    | _ => ([], [])

/-- Strategy 5 of `parseFilename`: no recognized delimiter — the whole name
is taken as the account number (both branches of the source's final `if`
assign the same values). -/
def parseStrategy5 (cs : List Char) : List Char × List Char :=
  if decide (3 ≤ cs.length) && decide (cs.length ≤ 20) && cs.all isAlnumC then
    (cs, ("Unknown").data)
  else
    (cs, ("Unknown").data)

/-- The strategy dispatch of `parseFilename`, producing the raw
`(accountNumber, customerName)` pair before the final `|| 'Unknown'`
substitutions. -/
def parseCore (nameWE : List Char) : List Char × List Char :=
  match acctSearch nameWE with
  | some a => parseStrategy1 a nameWE
  | none =>
    if nameWE.contains '_' then parseStrategy2 (splitOnChar '_' nameWE)
    else if nameWE.contains ' ' then parseScanParts (splitOnChar ' ' nameWE)
    else if nameWE.contains '-' then parseScanParts (splitOnChar '-' nameWE)
    else parseStrategy5 nameWE

/-- Result record of the filename decomposer. -/
structure FilenameParseResult where
  accountNumber : String
  customerName : String
deriving DecidableEq, Repr

/-- Embedding of `parseFilename` (ZipUploadComponent.tsx, lines 30–138):
strip the `.pdf` / `.PDF` extension (first occurrence each, as JS
`replace` with a string pattern does), run the ordered strategy chain, and
substitute `"Unknown"` for either empty field. -/
def parseFilename (filename : String) : FilenameParseResult :=
  let nameWE := replaceFirst (".PDF").data ([] : List Char)
    (replaceFirst (".pdf").data ([] : List Char) filename.data)
  let p := parseCore nameWE
  ⟨String.mk (orUnknown p.1), String.mk (orUnknown p.2)⟩

/-! ## Pattern matcher (`patternDetection.ts`)

A `RegExp` object is embedded abstractly: a `global` flag plus a `find`
function that returns the leftmost match from a given start position
(`exec` resumes a global regex at `lastIndex` and sets it to the end of
the match; a non-global regex always searches from position 0 and leaves
`lastIndex` alone).  The `exec` loop of `detectPatterns` is embedded with
explicit fuel, `none` meaning the loop has not finished within the given
fuel — `detectPatterns` itself has no termination guard for a zero-width
global match, which is exactly what claim C5 is about.  JS float
arithmetic in the confidence score is embedded over `ℚ`. -/

/-- One `exec` result: match index, whole matched text (`match[0]`) and the
first capture group (`match[1]`), when the pattern defines one and it
participated. -/
structure RegexMatchR where
  index : Nat
  matched : String
  capture : Option String
deriving DecidableEq, Repr

/-- Abstract JS `RegExp`: `find text i` returns the leftmost match starting
at a position `≥ i`. -/
structure JSRegex where
  global : Bool
  find : String → Nat → Option RegexMatchR

/-- The `valueType` union of `PatternRule`. -/
inductive ValueType where
  | account
  | name
  | address
  | date
  | currency
  | phone
  | email
deriving DecidableEq, Repr

/-- Interface `PatternRule` of `patternDetection.ts`. -/
structure PatternRule where
  name : String
  regex : JSRegex
  description : String
  type : ValueType
  priority : ℚ
  validator : Option (String → Bool)

/-- Interface `PatternMatch` of `patternDetection.ts`. -/
structure PatternMatch where
  value : String
  position : Nat
  confidence : ℚ
  context : String
deriving DecidableEq, Repr

/-- JS `match[1] || match[0]`: the capture group when present and truthy
(non-empty), otherwise the whole match. -/
def jsCaptureOr (capture : Option String) (whole : String) : String :=
  match capture with
  | some c => if c = "" then whole else c
  | none => whole

/-- JS `String.prototype.substring`: clamp both indices to the string
bounds and swap them if needed. -/
def jsSubstring (s : String) (a b : Nat) : String :=
  let a2 := min a s.length
  let b2 := min b s.length
  String.mk ((s.data.drop (min a2 b2)).take (max a2 b2 - min a2 b2))

/-- JS `String.prototype.includes`: `sub` occurs contiguously in `s`. -/
def jsIncludes (s sub : String) : Bool :=
  (List.range (s.data.length + 1)).any (fun i => sub.data.isPrefixOf (s.data.drop i))

/-- The fixed label vocabulary of `calculateConfidence`. -/
def labelWords : List String :=
  ["name", "account", "number", "customer", "bill", "to", "holder"]

/-- Anchored test `/^[A-Z]+\d+$/.test(value)`: a non-empty uppercase run
followed by a non-empty digit run consuming the whole string. -/
def upperDigitsShape (s : String) : Bool :=
  let cs := s.data
  let a := countLeading isUpperC cs
  decide (1 ≤ a) && decide (1 ≤ (cs.drop a).length) && (cs.drop a).all isDigitC

/-- Embedding of `calculateConfidence` (patternDetection.ts, lines
267–291): base 0.5, plus `(priority / 10) * 0.3`, plus 0.2 on a label word
in the context, plus 0.1 for account values of `LETTERS+DIGITS` shape,
minus 0.2 for lengths outside `[3, 50]`, clamped to `[0, 1]`. -/
def calculateConfidence (value context : String) (rule : PatternRule) : ℚ :=
  let c1 : ℚ := 1/2 + rule.priority / 10 * (3/10)
  let c2 := if labelWords.any (fun w => jsIncludes (jsToLower context) (jsToLower w))
    then c1 + 1/5 else c1
  let c3 := if decide (rule.type = ValueType.account) && upperDigitsShape value
    then c2 + 1/10 else c2
  let c4 := if decide (value.length < 3) || decide (value.length > 50)
    then c3 - 1/5 else c3
  max 0 (min 1 c4)

/-- Worker for `removeDuplicates`: keep the first occurrence of each
case-insensitive value (`key = match.value.toLowerCase()`). -/
def removeDupAux (seen : List String) : List PatternMatch → List PatternMatch
  | [] => []
  | m :: t =>
    if seen.contains (jsToLower m.value) then removeDupAux seen t
    else m :: removeDupAux (jsToLower m.value :: seen) t

/-- Embedding of `removeDuplicates` (patternDetection.ts): deduplicate by
lowercased value, keeping first occurrences. -/
def removeDuplicates (ms : List PatternMatch) : List PatternMatch :=
  removeDupAux [] ms

/-- Stable descending insertion: the new, originally-later element goes
after every element with greater-or-equal confidence. -/
def insertDesc (m : PatternMatch) : List PatternMatch → List PatternMatch
  | [] => [m]
  | x :: t => if x.confidence < m.confidence then m :: x :: t else x :: insertDesc m t

/-- JS `matches.sort((a, b) => b.confidence - a.confidence)`: a stable sort
by descending confidence (Array.prototype.sort is stable), embedded as
stable insertion sort. -/
def sortByConfidence (ms : List PatternMatch) : List PatternMatch :=
  ms.foldl (fun acc m => insertDesc m acc) []

/-- JS `rule.validator && !rule.validator(value)`. -/
def validatorRejects (rule : PatternRule) (value : String) : Bool :=
  match rule.validator with
  | some v => ! v value
  | none => false

/-- JS `regex.exec(text)` against mutable `lastIndex` state: a global
regex searches from `lastIndex` and updates it to the end of the match; a
non-global regex searches from 0 and leaves `lastIndex` unchanged. -/
def jsExec (r : JSRegex) (text : String) (lastIndex : Nat) :
    Option (RegexMatchR × Nat) :=
  if r.global then
    match r.find text lastIndex with
    | some m => some (m, m.index + m.matched.length)
    | none => none
  else
    match r.find text 0 with
    | some m => some (m, lastIndex)
    | none => none

/-- The `PatternMatch` pushed for one exec result: the candidate value
(`match[1] || match[0]`), the match index, the confidence computed from
the UNtrimmed 50-character context window (`Math.max(0, position - 50)` to
`Math.min(text.length, position + match[0].length + 50)`), and the trimmed
window as stored context. -/
def mkMatch (text : String) (rule : PatternRule) (m : RegexMatchR) : PatternMatch :=
  ⟨jsCaptureOr m.capture m.matched, m.index,
   calculateConfidence (jsCaptureOr m.capture m.matched)
     (jsSubstring text (m.index - 50)
       (min text.length (m.index + m.matched.length + 50))) rule,
   jsTrim (jsSubstring text (m.index - 50)
     (min text.length (m.index + m.matched.length + 50)))⟩

/-- The `while ((match = rule.regex.exec(text)) !== null)` loop of
`detectPatterns`, with fuel; `none` means the loop did not finish within
`fuel` iterations.  Control flow mirrors the source: a validator rejection
`continue`s (skipping the non-global `break`), a pushed match is followed
by the non-global `break`; there is no guard against a non-advancing
match. -/
def ruleLoop : Nat → PatternRule → String → Nat → List PatternMatch →
    Option (List PatternMatch)
  | 0, _, _, _, _ => none
  | fuel + 1, rule, text, lastIndex, acc =>
    match jsExec rule.regex text lastIndex with
    | none => some acc
    | some (m, li) =>
      if validatorRejects rule (jsCaptureOr m.capture m.matched) then
        ruleLoop fuel rule text li acc
      else if rule.regex.global then
        ruleLoop fuel rule text li (acc ++ [mkMatch text rule m])
      else
        some (acc ++ [mkMatch text rule m])

/-- Embedding of `detectPatterns` (patternDetection.ts, lines 219–265):
run every rule's exec loop from `lastIndex = 0`; a rule with surviving
matches contributes its deduplicated, confidence-sorted list under its
name (the result `Map` is an insertion-ordered association list).  `none`
propagates fuel exhaustion of any rule's loop. -/
def detectPatternsFuel (fuel : Nat) (text : String) :
    List PatternRule → Option (List (String × List PatternMatch))
  | [] => some []
  | rule :: rest =>
    match ruleLoop fuel rule text 0 [] with
    | none => none
    | some ms =>
      match detectPatternsFuel fuel text rest with
      | none => none
      | some tail =>
        some (if 0 < ms.length then
          (rule.name, sortByConfidence (removeDuplicates ms)) :: tail
        else tail)

/-- A zero-width always-matching global regex, e.g. `/(?:)/g` (or `/x*/g`
on text without `x`): `exec` returns an empty match at `lastIndex` and
does not advance it. -/
def zeroWidthRegex : JSRegex where
  global := true
  find := fun text i => if i ≤ text.length then some ⟨i, "", none⟩ else none

/-- A rule wrapping `zeroWidthRegex`. -/
def zeroWidthRule : PatternRule where
  name := "zero_width"
  regex := zeroWidthRegex
  description := "always matches the empty string"
  type := ValueType.account
  priority := 10
  validator := none

/-- A non-global rule whose only match is rejected by its validator: the
`continue` skips the non-global `break`, and `exec` restarts from
position 0 forever. -/
def rejectedNonGlobalRule : PatternRule where
  name := "nonglobal_rejected"
  regex := { global := false, find := fun _ _ => some ⟨0, "x", none⟩ }
  description := "match always rejected"
  type := ValueType.account
  priority := 1
  validator := some (fun _ => false)

/-- Witness rule for the confidence theorem: a non-global matcher locating
`"ABC123"` at offset 9 of the demo text. -/
def demoRule : PatternRule where
  name := "demo_account"
  regex := { global := false, find := fun _ _ => some ⟨9, "ABC123", none⟩ }
  description := "demo"
  type := ValueType.account
  priority := 8
  validator := none

/-- Witness text for the confidence theorem. -/
def demoText : String := "account: ABC123"

/-- The match `detectPatterns` produces for `demoRule` on `demoText`:
priority 8 contributes 0.24, the label word `"account"` 0.2, the
`LETTERS+DIGITS` shape 0.1; 0.5 + 0.54 clamps to 1. -/
def demoMatch : PatternMatch := mkMatch demoText demoRule ⟨9, "ABC123", none⟩

/-- The full result for `[demoRule]` on `demoText`. -/
def demoRes : List (String × List PatternMatch) := [("demo_account", [demoMatch])]

/-! ## Pattern synthesizer (`patternDetection.ts`, `generateRegexPattern`) -/

/-- JS `(ex.match(/[A-Za-z]/g) || []).length`: the number of letters in
the string (a count of characters, not a run length). -/
def letterCountJS (s : String) : Nat := (s.data.filter isAlphaC).length

/-- JS `(ex.match(/\d/g) || []).length`. -/
def digitCountJS (s : String) : Nat := (s.data.filter isDigitC).length

/-- JS `Math.max(...xs)` over a list of naturals (callers always pass a
non-empty list). -/
def maxOfList (xs : List Nat) : Nat := xs.foldl max 0

/-- JS `Math.min(...xs)` over a non-empty list of naturals. -/
def minOfList : List Nat → Nat
  | [] => 0
  | x :: t => t.foldl min x

/-- Embedding of `generateAccountPattern` (patternDetection.ts, lines
316–334): with both letters and digits somewhere in the example list, the
quantifier ranges come from the maximum TOTAL letter and digit counts per
example, with ±1 tolerance and floor 1; digits only: a range over observed
lengths; otherwise a generic uppercase-alphanumeric run. -/
def generateAccountPattern (examples : List String) : String :=
  let hasLetters := examples.any (fun ex => ex.data.any isAlphaC)
  let hasNumbers := examples.any (fun ex => ex.data.any isDigitC)
  if hasLetters && hasNumbers then
    let letterCount := maxOfList (examples.map letterCountJS)
    let numberCount := maxOfList (examples.map digitCountJS)
    "[A-Z]\x7b" ++ toString (max 1 (letterCount - 1)) ++ ","
      ++ toString (letterCount + 1) ++ "\x7d\\d\x7b"
      ++ toString (max 1 (numberCount - 1)) ++ ","
      ++ toString (numberCount + 1) ++ "\x7d"
  else if hasNumbers then
    let minLength := minOfList (examples.map (fun ex => ex.length))
    let maxLength := maxOfList (examples.map (fun ex => ex.length))
    "\\d\x7b" ++ toString minLength ++ "," ++ toString maxLength ++ "\x7d"
  else
    "[A-Z0-9]+"

/-- Worker for the word count `ex.split(/\s+/).length`: collapse
whitespace runs to single spaces (so splitting on a space models the
regex split). -/
def collapseWSAux (pending : Bool) : List Char → List Char
  | [] => if pending then [' '] else []
  | c :: t =>
    if isWS c then collapseWSAux true t
    else if pending then ' ' :: c :: collapseWSAux false t
    else c :: collapseWSAux false t

/-- JS `ex.split(/\s+/)`. -/
def splitWS (cs : List Char) : List (List Char) :=
  splitOnChar ' ' (collapseWSAux false cs)

/-- Embedding of `generateNamePattern` (patternDetection.ts). -/
def generateNamePattern (examples : List String) : String :=
  let hasAmpersand := examples.any (fun ex => ex.data.contains '&')
  if hasAmpersand then
    "[A-Z][a-z]+\\s*&\\s*[A-Z][a-z]+\\s+[A-Z][a-z]+"
  else
    let maxWords := maxOfList (examples.map (fun ex => (splitWS ex.data).length))
    if 3 ≤ maxWords then "[A-Z][a-z]+(?:\\s+[A-Z][a-z]+)\x7b1,2\x7d"
    else "[A-Z][a-z]+\\s+[A-Z][a-z]+"

/-- The character-class substitution of `generateGenericPattern`: letters
become a letter class, digits a digit class, whitespace optional
whitespace (the three sequential `replace` calls of the source never
rewrite each other's insertions, so a single pass is equivalent). -/
def genericSub : List Char → List Char
  | [] => []
  | c :: t =>
    (if isAlphaC c then ("[A-Za-z]").data
     else if isDigitC c then ("\\d").data
     else if isWS c then ("\\s*").data
     else [c]) ++ genericSub t

/-- Embedding of `generateGenericPattern` (patternDetection.ts):
substitute character classes in the FIRST example only. -/
def generateGenericPattern (examples : List String) : String :=
  String.mk (genericSub (examples.headD "").data)

/-- Embedding of `generateRegexPattern` (patternDetection.ts, lines
299–314): dispatch on the value type, with an empty-list guard. -/
def generateRegexPattern (examples : List String) (type : String) : String :=
  if examples.length = 0 then ""
  else if type = "account" then generateAccountPattern examples
  else if type = "name" then generateNamePattern examples
  else generateGenericPattern examples

/-- Worker for `maxRun`. -/
def maxRunAux (P : Char → Bool) : List Char → Nat → Nat → Nat
  | [], best, cur => max best cur
  | c :: t, best, cur =>
    if P c then maxRunAux P t best (cur + 1) else maxRunAux P t (max best cur) 0

/-- Length of the longest run of `P`-characters anywhere in the string. -/
def maxRun (P : Char → Bool) (cs : List Char) : Nat := maxRunAux P cs 0 0

/-- Account pattern as claim C7 words it (for comparison with
`generateAccountPattern`): quantifier ranges derived from the maximum
observed RUN lengths across the examples, ±1 tolerance, floor 1. -/
def claimAccountPattern (examples : List String) : String :=
  let letterRun := maxOfList (examples.map (fun ex => maxRun isAlphaC ex.data))
  let digitRun := maxOfList (examples.map (fun ex => maxRun isDigitC ex.data))
  "[A-Z]\x7b" ++ toString (max 1 (letterRun - 1)) ++ ","
    ++ toString (letterRun + 1) ++ "\x7d\\d\x7b"
    ++ toString (max 1 (digitRun - 1)) ++ ","
    ++ toString (digitRun + 1) ++ "\x7d"

/-! ## Pattern tester (`PatternDiscoveryTool.tsx`, `testSinglePattern`)

Compilation of a user-supplied pattern string (`new RegExp(pattern, 'gi')`
inside `try`/`catch`) is embedded as a function returning `Except`: an
invalid pattern yields `Except.error` with the engine's message. -/

/-- Result record of the pattern tester. -/
structure TestResult where
  pattern : String
  «matches» : List String
  success : Bool
  error : Option String
deriving DecidableEq, Repr

/-- The `while` loop of `testSinglePattern`, with fuel: push every match
value, `break` for a non-global regex, `break` past 50 collected matches.
Every iteration pushes, so 60 units of fuel are never exhausted. -/
def testLoopFuel : Nat → JSRegex → String → Nat → List String → List String
  | 0, _, _, _, acc => acc
  | fuel + 1, regex, text, lastIndex, acc =>
    match jsExec regex text lastIndex with
    | none => acc
    | some (m, li) =>
      let acc2 := acc ++ [jsCaptureOr m.capture m.matched]
      if ! regex.global then acc2
      else if 50 < acc2.length then acc2
      else testLoopFuel fuel regex text li acc2

/-- Worker for `jsDedup`. -/
def jsDedupAux (seen : List String) : List String → List String
  | [] => []
  | x :: t =>
    if seen.contains x then jsDedupAux seen t
    else x :: jsDedupAux (x :: seen) t

/-- JS `[...new Set(matches)]`: deduplicate keeping first occurrences. -/
def jsDedup (xs : List String) : List String := jsDedupAux [] xs

/-- Embedding of `testSinglePattern` (PatternDiscoveryTool.tsx, lines
481–509): a pattern that fails to compile yields `success = false`, no
matches, and the error message; a compiled pattern runs the bounded exec
loop and reports its deduplicated matches. -/
def testSinglePattern (compile : String → Except String JSRegex)
    (pattern text : String) : TestResult :=
  match compile pattern with
  | Except.error e => ⟨pattern, [], false, some e⟩
  | Except.ok regex => ⟨pattern, jsDedup (testLoopFuel 60 regex text 0 []), true, none⟩

/-- Embedding of `testAllPatterns` (PatternDiscoveryTool.tsx, line 539):
`patternsToTest.map(pattern => testSinglePattern(pattern, testText))`. -/
def testAllPatterns (compile : String → Except String JSRegex)
    (patterns : List String) (text : String) : List TestResult :=
  patterns.map (fun p => testSinglePattern compile p text)

/-- Witness compiler: `"["` is an invalid regular expression; everything
else compiles to a trivial never-matching regex. -/
def demoCompile : String → Except String JSRegex :=
  fun p =>
    if p = "[" then Except.error "Invalid regular expression: missing ]"
    else Except.ok { global := true, find := fun _ _ => none }

/-! Basic lemmas about the map embedding. -/

theorem find?_overwrite_self (m : List (String × CustomerData)) (k : String)
    (v : CustomerData) (hmem : m.any (fun p => p.1 = k) = true) :
    (m.map (fun p => if p.1 = k then (k, v) else p)).find? (fun p => p.1 = k)
      = some (k, v) := by
  induction m with
  | nil => simp at hmem
  | cons p t ih =>
    by_cases hp : p.1 = k
    · simp [List.find?, hp]
    · have ht : t.any (fun q => q.1 = k) = true := by
        simp only [List.any_cons, Bool.or_eq_true, decide_eq_true_eq] at hmem
        rcases hmem with h | h
        · exact absurd h hp
        · exact h
      simpa [List.find?, hp] using ih ht

theorem find?_overwrite_other (m : List (String × CustomerData)) (k k' : String)
    (v : CustomerData) (hk : k' ≠ k) :
    (m.map (fun p => if p.1 = k then (k, v) else p)).find? (fun p => p.1 = k')
      = m.find? (fun p => p.1 = k') := by
  induction m with
  | nil => simp
  | cons p t ih =>
    by_cases hp : p.1 = k
    · have h1 : ¬ (((k : String), v)).1 = k' := fun h => hk h.symm
      have h2 : ¬ p.1 = k' := by
        rw [hp]; exact fun h => hk h.symm
      rw [List.map_cons, if_pos hp,
        List.find?_cons_of_neg _ (by simpa using h1),
        List.find?_cons_of_neg _ (by simpa using h2), ih]
    · rw [List.map_cons, if_neg hp]
      by_cases hp' : p.1 = k'
      · rw [List.find?_cons_of_pos _ (by simpa using hp'),
          List.find?_cons_of_pos _ (by simpa using hp')]
      · rw [List.find?_cons_of_neg _ (by simpa using hp'),
          List.find?_cons_of_neg _ (by simpa using hp'), ih]

theorem mapGet_mapSet (m : List (String × CustomerData)) (k k' : String)
    (v : CustomerData) :
    mapGet (mapSet m k v) k' = if k' = k then some v else mapGet m k' := by
  unfold mapSet mapGet
  by_cases hmem : m.any (fun p => p.1 = k) = true
  · rw [if_pos hmem]
    by_cases hk : k' = k
    · subst hk
      rw [find?_overwrite_self m k' v hmem, if_pos rfl]
      rfl
    · rw [find?_overwrite_other m k k' v hk, if_neg hk]
  · rw [if_neg hmem, List.find?_append]
    by_cases hk : k' = k
    · subst hk
      have hnone : m.find? (fun p => p.1 = k') = none := by
        rw [List.find?_eq_none]
        intro p hp hpk
        exact hmem (List.any_eq_true.mpr ⟨p, hp, hpk⟩)
      simp [hnone, List.find?]
    · have h1 : (List.find? (fun p => p.1 = k') [(k, v)]) = none := by
        simp [List.find?, Ne.symm, hk]
      simp only [h1, if_neg hk]
      cases m.find? (fun p => p.1 = k') <;> rfl

/-- The built customer map realizes last-write-wins: looking up `k` returns
the last input customer whose normalized account number is `k`. -/
theorem buildCustomerMap_get (customerData : List CustomerData) (k : String) :
    mapGet (buildCustomerMap customerData) k = lookupLast customerData k := by
  suffices h : ∀ (cs : List CustomerData) (m : List (String × CustomerData)) (k : String),
      mapGet (cs.foldl (fun m c => mapSet m (normalizeKey c.accountNumber) c) m) k
        = match lookupLast cs k with
          | some c => some c
          | none => mapGet m k by
    have := h customerData [] k
    rw [buildCustomerMap, this]
    cases hl : lookupLast customerData k with
    | some c => simp
    | none => simp [mapGet, List.find?]
  intro cs
  induction cs with
  | nil => intro m k; simp [lookupLast]
  | cons c t ih =>
    intro m k
    rw [List.foldl_cons, ih]
    have hsplit : lookupLast (c :: t) k
        = match lookupLast t k with
          | some c' => some c'
          | none => if normalizeKey c.accountNumber = k then some c else none := by
      unfold lookupLast
      rw [List.reverse_cons, List.find?_append]
      cases t.reverse.find? (fun d => decide (normalizeKey d.accountNumber = k)) with
      | some c' => rfl
      | none =>
        by_cases hc : normalizeKey c.accountNumber = k
        · simp [List.find?, hc, Option.or]
        · simp [List.find?, hc, Option.or]
    rw [hsplit]
    cases hl : lookupLast t k with
    | some c' => rfl
    | none =>
      rw [mapGet_mapSet]
      by_cases hc : normalizeKey c.accountNumber = k
      · simp [hc]
      · have : k ≠ normalizeKey c.accountNumber := fun h => hc h.symm
        simp [hc, this]

/-- Rewriting the per-segment join through the last-write-wins lookup. -/
theorem reconcileOne_lookup (cs : List CustomerData) (pdf : PDFFile) :
    reconcileOne cs pdf
      = match lookupLast cs (normalizeKey pdf.accountNumber) with
        | some c => ⟨pdf, c, true⟩
        | none => ⟨pdf, placeholderCustomer pdf, false⟩ := by
  unfold reconcileOne
  rw [buildCustomerMap_get]

/-- The reconciled record always carries its input segment unchanged. -/
theorem reconcileOne_pdf (cs : List CustomerData) (pdf : PDFFile) :
    (reconcileOne cs pdf).pdf = pdf := by
  rw [reconcileOne_lookup]
  cases lookupLast cs (normalizeKey pdf.accountNumber) <;> rfl

/-- The lookup succeeds exactly when some customer carries the key. -/
theorem lookupLast_isSome (cs : List CustomerData) (k : String) :
    (lookupLast cs k).isSome = true
      ↔ k ∈ cs.map (fun c => normalizeKey c.accountNumber) := by
  unfold lookupLast
  rw [List.find?_isSome]
  constructor
  · rintro ⟨c, hc, hpk⟩
    exact List.mem_map.mpr ⟨c, List.mem_reverse.mp hc, by simpa using hpk⟩
  · intro h
    rcases List.mem_map.mp h with ⟨c, hc, hk⟩
    exact ⟨c, List.mem_reverse.mpr hc, by simpa using hk⟩

/-- A successful lookup returns an input customer carrying the key. -/
theorem lookupLast_mem {cs : List CustomerData} {k : String} {c : CustomerData}
    (h : lookupLast cs k = some c) :
    c ∈ cs ∧ normalizeKey c.accountNumber = k := by
  unfold lookupLast at h
  exact ⟨List.mem_reverse.mp (List.mem_of_find?_eq_some h),
    by simpa using List.find?_some h⟩

/-- C10: reconciliation preserves input order and content — the list of
`pdf` fields of the output is exactly the input segment list (hence the
`i`-th record carries the `i`-th segment with `name`, `accountNumber`,
`customerName` and `blob` unchanged), and the output has one record per
segment.  The embedding is a pure function, so neither input list is
mutated. -/
theorem reconcile_frame (pdfs : List PDFFile) (cs : List CustomerData) :
    (performMatching pdfs cs).map (fun r => r.pdf) = pdfs ∧
    (performMatching pdfs cs).length = pdfs.length := by
  constructor
  · rw [performMatching, List.map_map]
    have h : ((fun r => MatchedData.pdf r) ∘ reconcileOne cs) = id := by
      funext pdf
      exact reconcileOne_pdf cs pdf
    rw [h, List.map_id]
  · rw [performMatching, List.length_map]

/-- C1 (counterexample): with two segments carrying the same account number
and a single matching customer, the output has two `matched = true` entries
but there is only one distinct normalized customer key, so the claimed
bound `matched-count ≤ distinct-customer-keys` fails. -/
theorem reconcile_count_counterexample :
    ¬ (((performMatching [wPdf, wPdf] [wCust]).filter (fun r => r.matched)).length
        ≤ (([wCust] : List CustomerData).map
            (fun c => normalizeKey c.accountNumber)).toFinset.card) := by
  decide

/-- C1 (amended): `performMatching` returns exactly one record per input
segment; a record has `matched = true` iff the segment's normalized account
number is a key of the normalized customer lookup; and the number of
DISTINCT normalized account keys among the `matched = true` entries never
exceeds the number of distinct normalized customer keys (the raw count of
matched entries can exceed it when several segments share one key). -/
theorem reconcile_completeness (segs : List PDFFile) (cs : List CustomerData) :
    (performMatching segs cs).length = segs.length ∧
    (∀ r ∈ performMatching segs cs,
        r.matched = true ↔
          normalizeKey r.pdf.accountNumber
            ∈ cs.map (fun c => normalizeKey c.accountNumber)) ∧
    (((performMatching segs cs).filter (fun r => r.matched)).map
        (fun r => normalizeKey r.pdf.accountNumber)).toFinset.card
      ≤ (cs.map (fun c => normalizeKey c.accountNumber)).toFinset.card := by
  have hiff : ∀ r ∈ performMatching segs cs,
      r.matched = true ↔
        normalizeKey r.pdf.accountNumber
          ∈ cs.map (fun c => normalizeKey c.accountNumber) := by
    intro r hr
    rcases List.mem_map.mp hr with ⟨pdf, hpdf, rfl⟩
    rw [reconcileOne_lookup]
    cases hl : lookupLast cs (normalizeKey pdf.accountNumber) with
    | some c =>
      have hmem : normalizeKey pdf.accountNumber
          ∈ cs.map (fun c => normalizeKey c.accountNumber) :=
        (lookupLast_isSome cs _).mp (by rw [hl]; rfl)
      exact iff_of_true rfl hmem
    | none =>
      apply iff_of_false
      · simp
      · intro hmem
        have h2 := (lookupLast_isSome cs (normalizeKey pdf.accountNumber)).mpr hmem
        rw [hl] at h2
        simp at h2
  refine ⟨List.length_map _ _, hiff, ?_⟩
  apply Finset.card_le_card
  intro x hx
  rw [List.mem_toFinset] at hx ⊢
  rcases List.mem_map.mp hx with ⟨r, hrf, rfl⟩
  have hr : r ∈ performMatching segs cs := (List.mem_filter.mp hrf).1
  have hm : r.matched = true := by simpa using (List.mem_filter.mp hrf).2
  exact (hiff r hr).mp hm

/-- C4: assuming the reconciler's inputs satisfy the ingestion invariant
(every uploaded customer row has a non-empty email, which CSV validation
enforces), a record is `matched = true` iff its customer's email is
non-empty; a matched record's customer is one of the input customer
records (an actual join hit), and an unmatched record's customer is
exactly the placeholder with empty email. -/
theorem matched_iff_join_hit (segs : List PDFFile) (cs : List CustomerData)
    (hemail : ∀ c ∈ cs, c.email ≠ "") :
    ∀ r ∈ performMatching segs cs,
      (r.matched = true ↔ r.customer.email ≠ "") ∧
      (r.matched = true → r.customer ∈ cs) ∧
      (r.matched = false → r.customer = placeholderCustomer r.pdf) := by
  intro r hr
  rcases List.mem_map.mp hr with ⟨pdf, hpdf, rfl⟩
  rw [reconcileOne_lookup]
  cases hl : lookupLast cs (normalizeKey pdf.accountNumber) with
  | some c =>
    have hc := lookupLast_mem hl
    refine ⟨iff_of_true rfl (hemail c hc.1), fun _ => hc.1, fun hfalse => ?_⟩
    exact absurd hfalse (by simp)
  | none =>
    exact ⟨iff_of_false (by simp) (by simp [placeholderCustomer]),
      fun h => absurd h (by simp), fun _ => rfl⟩

/-- C4 (witness): the invariant instantiated on a concrete matched record
(case- and whitespace-variant key). -/
theorem matched_iff_join_hit_witness :
    (wOut1.matched = true ↔ wOut1.customer.email ≠ "") ∧
    (wOut1.matched = true → wOut1.customer ∈ [wCust]) ∧
    (wOut1.matched = false → wOut1.customer = placeholderCustomer wOut1.pdf) :=
  matched_iff_join_hit [wPdf] [wCust] (by decide) wOut1 (by decide)

/-- C8: when two customer records (at positions `i < j`) normalize to the
same account key, every segment carrying that normalized key is still
reconciled (`matched = true`) and is paired with the LAST input customer
whose normalized account number equals the segment's key; the duplicate is
not an error — the output still has one record per segment. -/
theorem duplicate_key_last_wins (pdfs : List PDFFile) (cs : List CustomerData)
    (i j : Nat) (hi : i < cs.length) (hj : j < cs.length) (hij : i < j)
    (hkey : normalizeKey (cs.get ⟨j, hj⟩).accountNumber
          = normalizeKey (cs.get ⟨i, hi⟩).accountNumber) :
    (performMatching pdfs cs).length = pdfs.length ∧
    ∀ r ∈ performMatching pdfs cs,
      normalizeKey r.pdf.accountNumber = normalizeKey (cs.get ⟨i, hi⟩).accountNumber →
      r.matched = true ∧
        lookupLast cs (normalizeKey r.pdf.accountNumber) = some r.customer := by
  refine ⟨List.length_map _ _, ?_⟩
  intro r hr hkr
  rcases List.mem_map.mp hr with ⟨pdf, hpdf, rfl⟩
  rw [reconcileOne_pdf] at hkr
  rw [reconcileOne_pdf, reconcileOne_lookup]
  cases hl : lookupLast cs (normalizeKey pdf.accountNumber) with
  | some c => exact ⟨rfl, rfl⟩
  | none =>
    have hmem : normalizeKey pdf.accountNumber
        ∈ cs.map (fun c => normalizeKey c.accountNumber) :=
      List.mem_map.mpr ⟨cs.get ⟨i, hi⟩, List.get_mem cs i hi, hkr.symm⟩
    have h2 := (lookupLast_isSome cs (normalizeKey pdf.accountNumber)).mpr hmem
    rw [hl] at h2
    simp at h2

/-- C8 (witness): two customers normalizing to the key "abc123"; the
segment is paired with the later one. -/
theorem duplicate_key_last_wins_witness :
    wOut.matched = true ∧
    lookupLast [wCust, wCust2] (normalizeKey wOut.pdf.accountNumber)
      = some wOut.customer :=
  (duplicate_key_last_wins [wPdf] [wCust, wCust2] 0 1 (by decide) (by decide)
      (by decide) (by decide)).2 wOut (by decide) (by decide)

/-- The `|| 'Unknown'` substitution never yields an empty string. -/
theorem orUnknown_ne_nil (s : List Char) : orUnknown s ≠ [] := by
  unfold orUnknown
  by_cases h : s.isEmpty
  · rw [if_pos h]
    decide
  · rw [if_neg h]
    simpa using h

/-- Packing a non-empty character list never yields the empty string. -/
theorem mk_ne_empty {l : List Char} (h : l ≠ []) : String.mk l ≠ "" :=
  fun he => h (by simpa using congrArg String.data he)

/-- C2: totality of the filename decomposer — for every input string
(empty, pure punctuation, no recognized delimiter, ...) both fields of the
result are non-empty, because the final `|| 'Unknown'` substitutions apply
to whatever the strategy chain produced. -/
theorem parseFilename_total (filename : String) :
    (parseFilename filename).accountNumber ≠ "" ∧
    (parseFilename filename).customerName ≠ "" :=
  ⟨mk_ne_empty (orUnknown_ne_nil _), mk_ne_empty (orUnknown_ne_nil _)⟩

/-- C6 (counterexample): strategy 1 only strips slash/dash NUMERIC date
shapes, so the month-name fragment `"May 2025"` survives into the customer
name — the claimed output `"John Smith"` is not what the code produces. -/
theorem parseFilename_example_counterexample :
    (parseFilename "FBNWSTX123456_John Smith_May 2025.pdf").customerName
      ≠ "John Smith" := by
  decide

/-- C6 (amended): on `"FBNWSTX123456_John Smith_May 2025.pdf"` the account
number is extracted as claimed, but the name keeps the month-year fragment:
`"John Smith May 2025"` (only numeric `/`- or `-`-delimited dates are
stripped by strategy 1). -/
theorem parseFilename_example :
    parseFilename "FBNWSTX123456_John Smith_May 2025.pdf"
      = ⟨"FBNWSTX123456", "John Smith May 2025"⟩ := by
  decide

/-- The confidence score written as one clamped sum, as the spec words it. -/
theorem calculateConfidence_formula (value context : String) (rule : PatternRule) :
    calculateConfidence value context rule
      = max 0 (min 1 ((1 : ℚ)/2 + rule.priority / 10 * (3/10)
          + (if labelWords.any (fun w => jsIncludes (jsToLower context) (jsToLower w))
              then (1 : ℚ)/5 else 0)
          + (if decide (rule.type = ValueType.account) && upperDigitsShape value
              then (1 : ℚ)/10 else 0)
          - (if decide (value.length < 3) || decide (value.length > 50)
              then (1 : ℚ)/5 else 0))) := by
  unfold calculateConfidence
  cases hL : labelWords.any (fun w => jsIncludes (jsToLower context) (jsToLower w)) <;>
    cases hS : decide (rule.type = ValueType.account) && upperDigitsShape value <;>
      cases hP : decide (value.length < 3) || decide (value.length > 50) <;>
        simp only [hL, hS, hP, if_true, if_false, Bool.false_eq_true, Bool.true_eq_false] <;>
          ring_nf

/-- The clamp keeps every confidence inside the unit interval. -/
theorem calculateConfidence_bounds (value context : String) (rule : PatternRule) :
    0 ≤ calculateConfidence value context rule ∧
      calculateConfidence value context rule ≤ 1 := by
  unfold calculateConfidence
  exact ⟨le_max_left 0 _, max_le (by norm_num) (min_le_left 1 _)⟩

/-- Deduplication only removes elements. -/
theorem mem_removeDupAux {m : PatternMatch} :
    ∀ (seen : List String) (ms : List PatternMatch),
      m ∈ removeDupAux seen ms → m ∈ ms := by
  intro seen ms
  induction ms generalizing seen with
  | nil => intro h; simpa [removeDupAux] using h
  | cons x t ih =>
    intro h
    cases hk : seen.contains (jsToLower x.value) with
    | true =>
      rw [removeDupAux, if_pos hk] at h
      exact List.mem_cons_of_mem x (ih seen h)
    | false =>
      rw [removeDupAux, if_neg (by rw [hk]; exact Bool.false_ne_true)] at h
      rcases List.mem_cons.mp h with h2 | h2
      · exact h2 ▸ List.mem_cons_self x t
      · exact List.mem_cons_of_mem x (ih _ h2)

/-- Insertion only adds the inserted element. -/
theorem mem_insertDesc {x m : PatternMatch} :
    ∀ l : List PatternMatch, x ∈ insertDesc m l → x = m ∨ x ∈ l := by
  intro l
  induction l with
  | nil => intro h; simpa [insertDesc] using h
  | cons y t ih =>
    intro h
    by_cases hc : y.confidence < m.confidence
    · rw [insertDesc, if_pos hc] at h
      rcases List.mem_cons.mp h with h2 | h2
      · exact Or.inl h2
      · exact Or.inr h2
    · rw [insertDesc, if_neg hc] at h
      rcases List.mem_cons.mp h with h2 | h2
      · exact Or.inr (h2 ▸ List.mem_cons_self y t)
      · rcases ih h2 with h3 | h3
        · exact Or.inl h3
        · exact Or.inr (List.mem_cons_of_mem y h3)

/-- Sorting permutes, so membership is preserved. -/
theorem mem_sortByConfidence {x : PatternMatch} {ms : List PatternMatch}
    (hx : x ∈ sortByConfidence ms) : x ∈ ms := by
  suffices h : ∀ (ms acc : List PatternMatch),
      x ∈ ms.foldl (fun acc m => insertDesc m acc) acc → x ∈ acc ∨ x ∈ ms by
    rcases h ms [] hx with h2 | h2
    · simp at h2
    · exact h2
  intro ms
  induction ms with
  | nil => intro acc h; exact Or.inl h
  | cons m t ih =>
    intro acc h
    rw [List.foldl_cons] at h
    rcases ih (insertDesc m acc) h with h2 | h2
    · rcases mem_insertDesc acc h2 with h3 | h3
      · exact Or.inr (h3 ▸ List.mem_cons_self m t)
      · exact Or.inl h3
    · exact Or.inr (List.mem_cons_of_mem m h2)

/-- Every match the exec loop adds carries a confidence computed by
`calculateConfidence` on its own value, some context window and the
rule. -/
theorem ruleLoop_confidence (rule : PatternRule) (text : String) :
    ∀ (fuel li : Nat) (acc out : List PatternMatch),
      ruleLoop fuel rule text li acc = some out →
      ∀ m ∈ out, m ∈ acc ∨
        ∃ ctx : String, m.confidence = calculateConfidence m.value ctx rule := by
  intro fuel
  induction fuel with
  | zero => intro li acc out h; simp [ruleLoop] at h
  | succ n ih =>
    intro li acc out h m hm
    rw [ruleLoop] at h
    cases hexec : jsExec rule.regex text li with
    | none =>
      rw [hexec] at h
      simp only [Option.some.injEq] at h
      subst h
      exact Or.inl hm
    | some p =>
      obtain ⟨m0, li2⟩ := p
      rw [hexec] at h
      simp only [] at h
      by_cases hrej : validatorRejects rule (jsCaptureOr m0.capture m0.matched) = true
      · rw [if_pos hrej] at h
        exact ih li2 acc out h m hm
      · rw [if_neg hrej] at h
        by_cases hg : rule.regex.global = true
        · rw [if_pos hg] at h
          rcases ih li2 (acc ++ [mkMatch text rule m0]) out h m hm with h2 | h2
          · rcases List.mem_append.mp h2 with h3 | h3
            · exact Or.inl h3
            · have h4 : m = mkMatch text rule m0 := by simpa using h3
              subst h4
              exact Or.inr ⟨_, rfl⟩
          · exact Or.inr h2
        · rw [if_neg hg] at h
          simp only [Option.some.injEq] at h
          subst h
          rcases List.mem_append.mp hm with h3 | h3
          · exact Or.inl h3
          · have h4 : m = mkMatch text rule m0 := by simpa using h3
            subst h4
            exact Or.inr ⟨_, rfl⟩

/-- C3: every `PatternMatch` the detector produces has a confidence equal
to the clamped sum the spec describes (base 0.5, priority/10 · 0.3, +0.2
for a label word in the context window, +0.1 for account values of
`LETTERS+DIGITS` shape, −0.2 for lengths outside `[3, 50]`), and in
particular it always lies in `[0, 1]`. -/
theorem confidence_spec :
    (∀ (value context : String) (rule : PatternRule),
        calculateConfidence value context rule
          = max 0 (min 1 ((1 : ℚ)/2 + rule.priority / 10 * (3/10)
              + (if labelWords.any (fun w => jsIncludes (jsToLower context) (jsToLower w))
                  then (1 : ℚ)/5 else 0)
              + (if decide (rule.type = ValueType.account) && upperDigitsShape value
                  then (1 : ℚ)/10 else 0)
              - (if decide (value.length < 3) || decide (value.length > 50)
                  then (1 : ℚ)/5 else 0)))
          ∧ 0 ≤ calculateConfidence value context rule
          ∧ calculateConfidence value context rule ≤ 1) ∧
    (∀ (fuel : Nat) (text : String) (rules : List PatternRule)
        (res : List (String × List PatternMatch)),
        detectPatternsFuel fuel text rules = some res →
        ∀ pr ∈ res, ∀ m ∈ pr.2,
          ∃ rule ∈ rules, ∃ ctx : String,
            m.confidence = calculateConfidence m.value ctx rule) := by
  constructor
  · intro value context rule
    exact ⟨calculateConfidence_formula value context rule,
      (calculateConfidence_bounds value context rule).1,
      (calculateConfidence_bounds value context rule).2⟩
  · intro fuel text rules
    induction rules with
    | nil =>
      intro res h pr hpr
      simp only [detectPatternsFuel, Option.some.injEq] at h
      subst h
      simp at hpr
    | cons rule rest ih =>
      intro res h pr hpr m hm
      rw [detectPatternsFuel] at h
      cases hms : ruleLoop fuel rule text 0 [] with
      | none => rw [hms] at h; simp at h
      | some ms =>
        rw [hms] at h
        cases htail : detectPatternsFuel fuel text rest with
        | none => rw [htail] at h; simp at h
        | some tl =>
          rw [htail] at h
          simp only [Option.some.injEq] at h
          subst h
          by_cases hlen : 0 < ms.length
          · rw [if_pos hlen] at hpr
            rcases List.mem_cons.mp hpr with h2 | h2
            · subst h2
              have hms2 : m ∈ ms := mem_removeDupAux _ _ (mem_sortByConfidence hm)
              rcases ruleLoop_confidence rule text fuel 0 [] ms hms m hms2 with h3 | h3
              · simp at h3
              · exact ⟨rule, List.mem_cons_self rule rest, h3⟩
            · rcases ih tl htail pr h2 m hm with ⟨r2, hr2, hctx⟩
              exact ⟨r2, List.mem_cons_of_mem rule hr2, hctx⟩
          · rw [if_neg hlen] at hpr
            rcases ih tl htail pr hpr m hm with ⟨r2, hr2, hctx⟩
            exact ⟨r2, List.mem_cons_of_mem rule hr2, hctx⟩

/-- C3 (witness): the match produced for `demoRule` on `demoText` carries
a confidence computed by `calculateConfidence` (here it clamps to 1). -/
theorem confidence_spec_witness :
    ∃ rule ∈ [demoRule], ∃ ctx : String,
      demoMatch.confidence = calculateConfidence demoMatch.value ctx rule :=
  confidence_spec.2 2 demoText [demoRule] demoRes rfl
    ("demo_account", [demoMatch]) (List.mem_singleton.mpr rfl)
    demoMatch (List.mem_singleton.mpr rfl)

/-- The exec loop never finishes on the zero-width always-matching global
rule: `lastIndex` never advances past the empty match. -/
theorem ruleLoop_zeroWidth_diverges :
    ∀ (fuel : Nat) (acc : List PatternMatch),
      ruleLoop fuel zeroWidthRule "a" 0 acc = none := by
  intro fuel
  induction fuel with
  | zero => intro acc; rfl
  | succ n ih =>
    intro acc
    have h1 : ruleLoop (n + 1) zeroWidthRule "a" 0 acc
        = ruleLoop n zeroWidthRule "a" 0
            (acc ++ [mkMatch "a" zeroWidthRule ⟨0, "", none⟩]) := rfl
    rw [h1]
    exact ih _

/-- The exec loop never finishes on a non-global rule whose match the
validator rejects: `continue` skips the non-global `break` and `exec`
restarts from position 0. -/
theorem ruleLoop_rejected_diverges :
    ∀ (fuel : Nat) (acc : List PatternMatch),
      ruleLoop fuel rejectedNonGlobalRule "x" 0 acc = none := by
  intro fuel
  induction fuel with
  | zero => intro acc; rfl
  | succ n ih =>
    intro acc
    have h1 : ruleLoop (n + 1) rejectedNonGlobalRule "x" 0 acc
        = ruleLoop n rejectedNonGlobalRule "x" 0 acc := rfl
    rw [h1]
    exact ih _

/-- C5: the claim is the intent but the code violates it — `detectPatterns`
does NOT terminate for every rule list.  For a zero-width always-matching
global pattern (e.g. `/(?:)/g`) the exec loop never advances `lastIndex`
(the source's only guard breaks for non-global patterns), and a non-global
pattern whose match is rejected by the rule's validator is re-executed
forever because `continue` skips the `break`.  In the fuel embedding, no
amount of fuel completes either loop. -/
theorem detectPatterns_nonterminating :
    (∀ fuel : Nat, detectPatternsFuel fuel "a" [zeroWidthRule] = none) ∧
    (∀ fuel : Nat, detectPatternsFuel fuel "x" [rejectedNonGlobalRule] = none) := by
  constructor
  · intro fuel
    rw [detectPatternsFuel, ruleLoop_zeroWidth_diverges fuel []]
  · intro fuel
    rw [detectPatternsFuel, ruleLoop_rejected_diverges fuel []]

/-- C7 (counterexample): the quantifier ranges come from TOTAL letter and
digit counts per example, not from maximal run lengths — on `["A1B2"]` the
code emits `[A-Z]{1,3}\d{1,3}` (counts 2 and 2) while the run-length
derivation the claim describes yields `[A-Z]{1,2}\d{1,2}` (runs of
length 1). -/
theorem account_pattern_run_counterexample :
    ((["A1B2"] : List String).any (fun ex => ex.data.any isAlphaC) = true ∧
     (["A1B2"] : List String).any (fun ex => ex.data.any isDigitC) = true) ∧
    generateRegexPattern ["A1B2"] "account" ≠ claimAccountPattern ["A1B2"] := by
  constructor
  · exact ⟨by decide, by decide⟩
  · decide

/-- C7 (amended): for example lists containing letters and digits, the
emitted pattern is `[A-Z]{max(1,L−1),L+1}\d{max(1,N−1),N+1}` where `L` and
`N` are the maximum TOTAL letter and digit counts per example; on
`["FBNWSTX1234","SMNWSTX56789"]` this gives `[A-Z]{6,8}\d{4,6}`, whose
ranges contain every observed letter count (7, 7) and digit count
(4, 5). -/
theorem generateAccountPattern_spec (examples : List String)
    (hL : examples.any (fun ex => ex.data.any isAlphaC) = true)
    (hN : examples.any (fun ex => ex.data.any isDigitC) = true) :
    generateRegexPattern examples "account"
      = "[A-Z]\x7b" ++ toString (max 1 (maxOfList (examples.map letterCountJS) - 1))
        ++ "," ++ toString (maxOfList (examples.map letterCountJS) + 1)
        ++ "\x7d\\d\x7b" ++ toString (max 1 (maxOfList (examples.map digitCountJS) - 1))
        ++ "," ++ toString (maxOfList (examples.map digitCountJS) + 1) ++ "\x7d" ∧
    (generateRegexPattern ["FBNWSTX1234", "SMNWSTX56789"] "account"
        = "[A-Z]\x7b6,8\x7d\\d\x7b4,6\x7d" ∧
      letterCountJS "FBNWSTX1234" = 7 ∧ letterCountJS "SMNWSTX56789" = 7 ∧
      digitCountJS "FBNWSTX1234" = 4 ∧ digitCountJS "SMNWSTX56789" = 5 ∧
      6 ≤ 7 ∧ 7 ≤ 8 ∧ 4 ≤ 4 ∧ 4 ≤ 6 ∧ 4 ≤ 5 ∧ 5 ≤ 6) := by
  constructor
  · have hne : ¬ examples.length = 0 := by
      intro h0
      rw [List.length_eq_zero] at h0
      subst h0
      simp at hL
    have h1 : generateRegexPattern examples "account" = generateAccountPattern examples := by
      unfold generateRegexPattern
      rw [if_neg hne]
      rfl
    rw [h1]
    unfold generateAccountPattern
    rw [hL, hN]
    simp
  · decide

/-- C7 (witness): the amended formula instantiated on the two spec
examples. -/
theorem generateAccountPattern_spec_witness :
    generateRegexPattern ["FBNWSTX1234", "SMNWSTX56789"] "account"
      = "[A-Z]\x7b"
        ++ toString (max 1 (maxOfList ((["FBNWSTX1234", "SMNWSTX56789"] : List String).map letterCountJS) - 1))
        ++ "," ++ toString (maxOfList ((["FBNWSTX1234", "SMNWSTX56789"] : List String).map letterCountJS) + 1)
        ++ "\x7d\\d\x7b"
        ++ toString (max 1 (maxOfList ((["FBNWSTX1234", "SMNWSTX56789"] : List String).map digitCountJS) - 1))
        ++ "," ++ toString (maxOfList ((["FBNWSTX1234", "SMNWSTX56789"] : List String).map digitCountJS) + 1)
        ++ "\x7d" :=
  (generateAccountPattern_spec ["FBNWSTX1234", "SMNWSTX56789"] (by decide) (by decide)).1

/-- C9: an invalid pattern string is caught at the point of use — the
result for that single pattern has `success = false`, an empty match list
and the error message attached; and since `testAllPatterns` maps
`testSinglePattern` over the pattern list, every other pattern's result is
exactly its own independent evaluation (no abort). -/
theorem testSinglePattern_error (compile : String → Except String JSRegex)
    (pat text msg : String) (patterns : List String) (i : Nat)
    (h : compile pat = Except.error msg) :
    testSinglePattern compile pat text = ⟨pat, [], false, some msg⟩ ∧
    (testAllPatterns compile patterns text).length = patterns.length ∧
    (testAllPatterns compile patterns text)[i]?
      = (patterns[i]?).map (fun p => testSinglePattern compile p text) := by
  refine ⟨?_, List.length_map _ _, ?_⟩
  · unfold testSinglePattern
    rw [h]
  · unfold testAllPatterns
    rw [List.getElem?_map]

/-- C9 (witness): the invalid pattern `"["` errors in place while the
second pattern of the list is still evaluated on its own. -/
theorem testSinglePattern_error_witness :
    testSinglePattern demoCompile "[" "abc"
      = ⟨"[", [], false, some "Invalid regular expression: missing ]"⟩ ∧
    (testAllPatterns demoCompile ["[", "ok"] "abc").length
      = (["[", "ok"] : List String).length ∧
    (testAllPatterns demoCompile ["[", "ok"] "abc")[1]?
      = ((["[", "ok"] : List String)[1]?).map
          (fun p => testSinglePattern demoCompile p "abc") :=
  testSinglePattern_error demoCompile "[" "abc"
    "Invalid regular expression: missing ]" ["[", "ok"] 1 rfl

end PdfEmailer
